import Mathlib
/-!
Shallow embedding of `value_and_jacfwd.py` (the forward-mode value-and-Jacobian
patch for JAX) and proofs about it.

The repository's own code is the `_jvp` validation-and-dispatch function and the
`value_and_jacfwd` / `jacfun` orchestration.  The structured-value codec
(`tree_flatten` / `tree_unflatten` / `tree_map`), the differentiable runtime
(`ad.jvp`), the batched driver (`vmap`), the basis generator (`_std_basis`), the
reassembler (`_unravel_array_into_pytree`) and the validation helpers
(`_check_callable`, `_check_input_dtype_jacfwd`, `_check_output_dtype_jacfwd`)
are external collaborators; they are modelled here from the spec's interface
descriptions, as marked on each definition.

Numeric leaves are rectangular arrays of integer-valued scalars (exact
arithmetic stands in for the platform's machine arithmetic — the pipeline
itself only moves elements around and never divides — so "bit-identical"
becomes equality of exact values); array element data is stored flat in
row-major order.
-/

/-- Element dtypes of numeric leaves.  `float0` is the special zero-sized
"no-tangent" dtype used for tangents of integer/boolean primals. -/
inductive DType where
  | float
  | complex_
  | int_
  | bool_
  | float0
deriving DecidableEq, Repr

/-- The tangent dtype derived from a primal dtype
(`core.primal_dtype_to_tangent_dtype`): floating dtypes map to themselves,
integer/boolean dtypes map to `float0`. -/
def DType.tangent : DType → DType
  | .float => .float
  | .complex_ => .complex_
  | _ => .float0

/-- Whether a dtype is inexact (floating or complex). -/
def DType.inexact : DType → Bool
  | .float => true
  | .complex_ => true
  | _ => false

/-- A numeric leaf: a rectangular array with a dtype, a shape, and flat
row-major element data. -/
structure Arr where
  dtype : DType
  shape : List Nat
  data : List ℤ
deriving DecidableEq, Repr

instance : Inhabited Arr := ⟨⟨.float, [], []⟩⟩

/-- Number of scalar elements of an array (product of the shape). -/
def Arr.count (a : Arr) : Nat := a.shape.prod

mutual
/-- A structured value (pytree): nested ordered containers of numeric leaves. -/
inductive PyTree where
  | leaf (a : Arr)
  | node (ts : PyTreeList)
/-- A list of pytrees (children of a container). -/
inductive PyTreeList where
  | nil
  | cons (hd : PyTree) (tl : PyTreeList)
end

mutual
/-- Structural descriptor of a pytree (the container skeleton with leaf
payloads erased), i.e. the codec's tree definition. -/
inductive TreeDef where
  | leaf
  | node (ts : TreeDefList)
/-- A list of structural descriptors. -/
inductive TreeDefList where
  | nil
  | cons (hd : TreeDef) (tl : TreeDefList)
end

mutual
/-- Decidable equality of pytrees. -/
def PyTree.decEq : (a b : PyTree) → Decidable (a = b)
  | .leaf a, .leaf b =>
      match decEq a b with
      | isTrue h => isTrue (by rw [h])
      | isFalse h => isFalse (by intro hh; injection hh with h2; exact h h2)
  | .leaf _, .node _ => isFalse (by intro h; exact PyTree.noConfusion h)
  | .node _, .leaf _ => isFalse (by intro h; exact PyTree.noConfusion h)
  | .node ts, .node us =>
      match PyTreeList.decEq ts us with
      | isTrue h => isTrue (by rw [h])
      | isFalse h => isFalse (by intro hh; injection hh with h2; exact h h2)
termination_by structural a b => a
/-- Decidable equality of pytree lists. -/
def PyTreeList.decEq : (a b : PyTreeList) → Decidable (a = b)
  | .nil, .nil => isTrue rfl
  | .nil, .cons _ _ => isFalse (by intro h; exact PyTreeList.noConfusion h)
  | .cons _ _, .nil => isFalse (by intro h; exact PyTreeList.noConfusion h)
  | .cons h t, .cons h' t' =>
      match PyTree.decEq h h', PyTreeList.decEq t t' with
      | isTrue h1, isTrue h2 => isTrue (by rw [h1, h2])
      | isFalse h1, _ => isFalse (by intro hh; injection hh with a b; exact h1 a)
      | _, isFalse h2 => isFalse (by intro hh; injection hh with a b; exact h2 b)
termination_by structural a b => a
end

instance : DecidableEq PyTree := PyTree.decEq

instance : DecidableEq PyTreeList := PyTreeList.decEq

mutual
/-- Decidable equality of structural descriptors. -/
def TreeDef.decEq : (a b : TreeDef) → Decidable (a = b)
  | .leaf, .leaf => isTrue rfl
  | .leaf, .node _ => isFalse (by intro h; exact TreeDef.noConfusion h)
  | .node _, .leaf => isFalse (by intro h; exact TreeDef.noConfusion h)
  | .node ts, .node us =>
      match TreeDefList.decEq ts us with
      | isTrue h => isTrue (by rw [h])
      | isFalse h => isFalse (by intro hh; injection hh with h2; exact h h2)
termination_by structural a b => a
/-- Decidable equality of descriptor lists. -/
def TreeDefList.decEq : (a b : TreeDefList) → Decidable (a = b)
  | .nil, .nil => isTrue rfl
  | .nil, .cons _ _ => isFalse (by intro h; exact TreeDefList.noConfusion h)
  | .cons _ _, .nil => isFalse (by intro h; exact TreeDefList.noConfusion h)
  | .cons h t, .cons h' t' =>
      match TreeDef.decEq h h', TreeDefList.decEq t t' with
      | isTrue h1, isTrue h2 => isTrue (by rw [h1, h2])
      | isFalse h1, _ => isFalse (by intro hh; injection hh with a b; exact h1 a)
      | _, isFalse h2 => isFalse (by intro hh; injection hh with a b; exact h2 b)
termination_by structural a b => a
end

instance : DecidableEq TreeDef := TreeDef.decEq

instance : DecidableEq TreeDefList := TreeDefList.decEq

mutual
/-- The ordered leaf sequence of a pytree (the codec's `tree_flatten`, leaf
part): leaves are listed in left-to-right flattened order. -/
def PyTree.leaves : PyTree → List Arr
  | .leaf a => [a]
  | .node ts => PyTreeList.leaves ts
termination_by structural t => t
def PyTreeList.leaves : PyTreeList → List Arr
  | .nil => []
  | .cons h t => PyTree.leaves h ++ PyTreeList.leaves t
termination_by structural t => t
end

mutual
/-- The structural descriptor of a pytree (the codec's `tree_flatten`,
tree-definition part). -/
def PyTree.struct : PyTree → TreeDef
  | .leaf _ => .leaf
  | .node ts => .node (PyTreeList.struct ts)
termination_by structural t => t
def PyTreeList.struct : PyTreeList → TreeDefList
  | .nil => .nil
  | .cons h t => .cons (PyTree.struct h) (PyTreeList.struct t)
termination_by structural t => t
end

mutual
/-- Rebuild a pytree from a template by replacing its leaves, in flattened
order, with the fronts of the given leaf list; returns the rebuilt tree and
the unconsumed rest of the list (the codec's `tree_unflatten`, driven by the
template's descriptor). -/
def PyTree.rebuild : PyTree → List Arr → PyTree × List Arr
  | .leaf a, ls =>
      match ls with
      | [] => (.leaf a, [])
      | b :: rest => (.leaf b, rest)
  | .node ts, ls =>
      let p := PyTreeList.rebuild ts ls
      (.node p.1, p.2)
termination_by structural t ls => t
def PyTreeList.rebuild : PyTreeList → List Arr → PyTreeList × List Arr
  | .nil, ls => (.nil, ls)
  | .cons h t, ls =>
      let p := PyTree.rebuild h ls
      let q := PyTreeList.rebuild t p.2
      (.cons p.1 q.1, q.2)
termination_by structural t ls => t
end

mutual
/-- Apply a function to every leaf of a pytree (the codec's `tree_map` with a
leaf-to-leaf function). -/
def PyTree.mapLeaves (f : Arr → Arr) : PyTree → PyTree
  | .leaf a => .leaf (f a)
  | .node ts => .node (PyTreeList.mapLeaves f ts)
termination_by structural t => t
def PyTreeList.mapLeaves (f : Arr → Arr) : PyTreeList → PyTreeList
  | .nil => .nil
  | .cons h t => .cons (PyTree.mapLeaves f h) (PyTreeList.mapLeaves f t)
termination_by structural t => t
end

mutual
/-- Apply a pytree-producing function to every leaf of a pytree, grafting the
produced subtree in place of the leaf (the codec's `tree_map` with a function
that itself returns a pytree). -/
def PyTree.graft (f : Arr → PyTree) : PyTree → PyTree
  | .leaf a => f a
  | .node ts => .node (PyTreeList.graft f ts)
termination_by structural t => t
def PyTreeList.graft (f : Arr → PyTree) : PyTreeList → PyTreeList
  | .nil => .nil
  | .cons h t => .cons (PyTree.graft f h) (PyTreeList.graft f t)
termination_by structural t => t
end

mutual
/-- Replace every leaf position of a descriptor with a whole descriptor. -/
def TreeDef.graftAll : TreeDef → TreeDef → TreeDef
  | .leaf, e => e
  | .node ts, e => .node (TreeDefList.graftAll ts e)
termination_by structural d e => d
def TreeDefList.graftAll : TreeDefList → TreeDef → TreeDefList
  | .nil, _ => .nil
  | .cons h t, e => .cons (TreeDef.graftAll h e) (TreeDefList.graftAll t e)
termination_by structural d e => d
end

mutual
/-- Extract, from a tree whose structure is a grafting of subtrees onto the
leaf positions of the given descriptor, the list of grafted subtrees in
flattened order. -/
def TreeDef.parts : TreeDef → PyTree → List PyTree
  | .leaf, t => [t]
  | .node ds, t =>
      match t with
      | .leaf _ => []
      | .node ts => TreeDefList.parts ds ts
termination_by structural d t => d
def TreeDefList.parts : TreeDefList → PyTreeList → List PyTree
  | .nil, _ => []
  | .cons d ds, ts =>
      match ts with
      | .nil => []
      | .cons h t => TreeDef.parts d h ++ TreeDefList.parts ds t
termination_by structural d t => d
end

/-- Conversion of an ordinary list of pytrees into a container child list. -/
def PyTreeList.ofList : List PyTree → PyTreeList
  | [] => .nil
  | h :: t => .cons h (PyTreeList.ofList t)
termination_by structural l => l

/-- Conversion of a container child list back to an ordinary list. -/
def PyTreeList.toList : PyTreeList → List PyTree
  | .nil => []
  | .cons h t => h :: PyTreeList.toList t
termination_by structural l => l

/-- The children of a pytree as an ordinary list (a leaf is its own single
child, matching Python iteration over a non-container falling back). -/
def PyTree.children : PyTree → List PyTree
  | .leaf a => [.leaf a]
  | .node ts => PyTreeList.toList ts

/-- The error taxonomy of the spec (the Python raises `TypeError` /
`ValueError`; the spec names the distinguishable kinds). -/
inductive Err where
  | argumentStructureError
  | dtypeMismatchError
  | shapeMismatchError
  | inputDtypeError
  | outputDtypeError
  | notCallableError
deriving DecidableEq, Repr

/-- Modelled from the spec: the Differentiable Runtime collaborator's view of
a (wrapped, keyword-free) traced function, presented by its primal evaluation
`eval`, its forward-mode directional derivative `jvp` (the output's
first-order change for one input perturbation direction, evaluated at the
primals), and its auxiliary output `aux` (attached to the primal pass only). -/
structure DiffFun where
  eval : PyTree → PyTree
  jvp : PyTree → PyTree → PyTree
  aux : PyTree → PyTree

/-- Modelled from the spec: a user function as the runtime can trace it —
a callability flag, a call map from positional arguments and keyword
arguments to the `(primary, auxiliary)` output pair, and its forward-mode
derivative taking tangents for every positional and keyword argument. -/
structure UserFun where
  callable : Bool
  call : List PyTree → List (String × PyTree) → PyTree × PyTree
  jvp : List PyTree → List (String × PyTree) → List PyTree → List PyTree → PyTree

/-- Whether a pytree is a sequence-like container (Python
`isinstance(x, (tuple, list))`). -/
def PyTree.isSeq : PyTree → Bool
  | .node _ => true
  | .leaf _ => false

/-- The per-pair leaf check of `_jvp`'s validation loop: first the tangent
dtype must equal the tangent dtype derived from the primal dtype, then the
shapes must agree (source lines 66–76, in that order). -/
def pairCheck (p t : Arr) : Option Err :=
  if p.dtype.tangent ≠ t.dtype then some .dtypeMismatchError
  else if p.shape ≠ t.shape then some .shapeMismatchError
  else none

/-- The eager validation of `_jvp` (source lines 55–76): primals and tangents
must be sequence-like, their descriptors must match, and every paired leaf
must pass `pairCheck`; the first violation in scan order is reported. -/
def jvpChecks (primals tangents : PyTree) : Option Err :=
  if ¬ (primals.isSeq && tangents.isSeq) then some .argumentStructureError
  else if primals.struct ≠ tangents.struct then some .argumentStructureError
  else (primals.leaves.zip tangents.leaves).findSome? (fun pt => pairCheck pt.1 pt.2)

/-- Embedding of `_jvp` (source lines 53–90): run the eager checks, then let
the runtime evaluate the function once while propagating the given tangent
direction; the codec's flatten/unflatten plumbing around `ad.jvp` cancels by
the codec's round-trip law, so the result is the primal output, the output
tangent and the auxiliary output.  The `hasAux` flag selects which plumbing
the source uses; both return the same components here. -/
def jvpModel (f : DiffFun) (primals tangents : PyTree) (hasAux : Bool) :
    Except Err ((PyTree × PyTree) × PyTree) :=
  match jvpChecks primals tangents with
  | some e => .error e
  | none =>
      let _ := hasAux
      .ok ((f.eval primals, f.jvp primals tangents), f.aux primals)

/-- The zero tangent leaf paired with a primal leaf: tangent dtype, same
shape, all elements zero. -/
def zeroLeaf (a : Arr) : Arr :=
  ⟨a.dtype.tangent, a.shape, List.replicate a.count 0⟩

/-- The zero tangent structure paired with a primal structure. -/
def zeroTangent (t : PyTree) : PyTree := t.mapLeaves zeroLeaf

/-- The number of scalar degrees of freedom a leaf contributes to the basis:
leaves whose tangent dtype is the no-tangent dtype contribute nothing. -/
def Arr.diffCount (a : Arr) : Nat :=
  if a.dtype.tangent = .float0 then 0 else a.count

/-- A one-hot data vector of length `c` with the hot element at offset `j`. -/
def oneHot (c j : Nat) : List ℤ :=
  (List.range c).map (fun m => if m = j then 1 else 0)

/-- Modelled from the spec: the Basis Generator's leaf lists.  For a leaf
sequence it produces, in canonical order (leaves in flattened order, scalar
offsets within a leaf in row-major order), one leaf list per scalar degree of
freedom: the active leaf carries a one-hot vector, every other leaf a zero
tangent. -/
def basisLists : List Arr → List (List Arr)
  | [] => []
  | a :: rest =>
      ((List.range a.diffCount).map
        (fun j => (⟨a.dtype.tangent, a.shape, oneHot a.count j⟩ : Arr) :: rest.map zeroLeaf))
      ++ (basisLists rest).map (fun ls => zeroLeaf a :: ls)

/-- Modelled from the spec: `_std_basis` — the sequence of one-hot standard
basis tangent structures spanning the input structure, in canonical order. -/
def stdBasis (x : PyTree) : List PyTree :=
  (basisLists x.leaves).map (fun ls => (x.rebuild ls).1)

/-- Stack one output-tangent leaf across the batch of directions: the new axis
is the trailing axis, so for each row-major element position the per-direction
values become contiguous. -/
def stackLeaf (n : Nat) (a : Arr) (ds : List (List ℤ)) : Arr :=
  ⟨a.dtype, a.shape ++ [n],
   (List.range a.count).flatMap (fun m => ds.map (fun d => d.getD m 0))⟩

/-- Stack every template leaf in order: the `k`-th template leaf is stacked
over the `k`-th leaf of each per-direction output. -/
def stackList (n : Nat) (flats : List (List Arr)) : Nat → List Arr → List Arr
  | _, [] => []
  | k, a :: rest =>
      stackLeaf n a (flats.map (fun ls => (ls.getD k default).data)) ::
        stackList n flats (k + 1) rest

/-- Modelled from the spec: the batched driver's stacking step — the varying
(tangent) portions of the per-direction results are stacked along a new
trailing axis, leaf by leaf, over the template tangent structure. -/
def stackTangents (template : PyTree) (touts : List PyTree) : PyTree :=
  (template.rebuild
    (stackList touts.length (touts.map PyTree.leaves) 0 template.leaves)).1

/-- Run the tangent-propagation call on every basis direction, collecting the
output tangents; any validation failure aborts the batch. -/
def collectTangents (pushfwd : PyTree → Except Err ((PyTree × PyTree) × PyTree)) :
    List PyTree → Except Err (List PyTree)
  | [] => .ok []
  | b :: bs =>
      match pushfwd b with
      | .error e => .error e
      | .ok r =>
          match collectTangents pushfwd bs with
          | .error e => .error e
          | .ok rs => .ok (r.1.2 :: rs)

/-- Modelled from the spec: `vmap` of the tangent-propagation call with
`out_axes` sharing the value and auxiliary portions (`None`) and stacking the
tangent portion along the trailing axis (`-1`).  The shared portion is
computed once, from the unbatched skeleton (the zero tangent structure, which
has each direction's shapes and dtypes), and broadcast; the varying portions
are collected over the basis and stacked. -/
def vmapJvp (pushfwd : PyTree → Except Err ((PyTree × PyTree) × PyTree))
    (skel : PyTree) (basis : List PyTree) :
    Except Err ((PyTree × PyTree) × PyTree) :=
  match pushfwd skel with
  | .error e => .error e
  | .ok shared =>
      match collectTangents pushfwd basis with
      | .error e => .error e
      | .ok touts =>
          .ok ((shared.1.1, stackTangents shared.1.2 touts), shared.2)

/-- One batch of rows: for each of `p` rows of row length `rowLen` in the flat
data, the sub-range of `c` columns starting at column `off`. -/
def rowSlices (d : List ℤ) (rowLen off c : Nat) : Nat → List ℤ
  | 0 => []
  | p + 1 => ((d.drop off).take c) ++ rowSlices (d.drop rowLen) rowLen off c p

/-- Modelled from the spec: the Jacobian Reassembler's chunking — walk the
example leaves in canonical order, giving the `k`-th leaf the sub-range of
`count` columns of the trailing axis starting at its canonical offset,
reshaped to the leading shape followed by the leaf's shape. -/
def unravelChunks (s : List Nat) (rowLen p : Nat) (d : List ℤ) (dt : DType) :
    Nat → List Arr → List Arr
  | _, [] => []
  | off, l :: rest =>
      ⟨dt, s ++ l.shape, rowSlices d rowLen off l.count p⟩ ::
        unravelChunks s rowLen p d dt (off + l.count) rest

/-- Modelled from the spec: `_unravel_array_into_pytree` at axis `-1` — split
the trailing axis of the stacked array back into the per-input-leaf
sub-ranges established by the Basis Generator's canonical order, reshape each
sub-range into leading shape + input leaf shape, and unflatten the chunks
into the example structure. -/
def unravel (ex : PyTree) (a : Arr) : PyTree :=
  let s := a.shape.dropLast
  let rowLen := a.shape.getLastD 0
  (ex.rebuild (unravelChunks s rowLen s.prod a.data a.dtype 0 ex.leaves)).1

/-- Modelled from the spec: `_check_input_dtype_jacfwd` mapped over the
differentiated arguments — fails with `InputDtypeError` unless `holomorphic`
is set or every differentiated leaf dtype is inexact. -/
def checkInput (holo : Bool) (t : PyTree) : Except Err Unit :=
  if holo then .ok ()
  else if t.leaves.all (fun a => a.dtype.inexact) then .ok ()
  else .error .inputDtypeError

/-- Modelled from the spec: `_check_output_dtype_jacfwd` mapped over the
primary output — fails with `OutputDtypeError` unless `holomorphic` is set or
every output leaf dtype is an inexact real type. -/
def checkOutput (holo : Bool) (t : PyTree) : Except Err Unit :=
  if holo then .ok ()
  else if t.leaves.all (fun a => a.dtype = .float) then .ok ()
  else .error .outputDtypeError

/-- The `argnums` parameter resolved once at entry: a single positional index
or an ordered sequence of indices. -/
inductive Argnums where
  | single (n : Nat)
  | many (ns : List Nat)
deriving DecidableEq, Repr

/-- The list of selected positional-argument indices. -/
def Argnums.idxList : Argnums → List Nat
  | .single n => [n]
  | .many ns => ns

/-- Rebuild the full positional-argument list, substituting the selected
positions with the corresponding differentiated values; `i` is the position
of the head of `args`. -/
def mergeArgs (idx : List Nat) (newVals : List PyTree) : Nat → List PyTree → List PyTree
  | _, [] => []
  | i, a :: rest =>
      (if i ∈ idx then newVals.getD (idx.indexOf i) a else a) ::
        mergeArgs idx newVals (i + 1) rest

/-- The tangents handed to the user function: selected positions receive the
corresponding component of the direction, every fixed position receives the
zero tangent of its (closed-over, constant) value. -/
def mergeTangents (idx : List Nat) (tch : List PyTree) : Nat → List PyTree → List PyTree
  | _, [] => []
  | i, a :: rest =>
      (if i ∈ idx then tch.getD (idx.indexOf i) (zeroTangent a) else zeroTangent a) ::
        mergeTangents idx tch (i + 1) rest

/-- Embedding of `lu.wrap_init(fun, kwargs)` followed by `argnums_partial`
(source lines 102–103): the wrapped function over the tuple of differentiated
arguments, with the fixed positional arguments and all keyword arguments
closed over as constants — constants carry zero tangents in the forward-mode
trace. -/
def mkDiffFun (f : UserFun) (args : List PyTree) (kwargs : List (String × PyTree))
    (idx : List Nat) : DiffFun :=
  { eval := fun p => (f.call (mergeArgs idx p.children 0 args) kwargs).1
    aux := fun p => (f.call (mergeArgs idx p.children 0 args) kwargs).2
    jvp := fun p t =>
      f.jvp (mergeArgs idx p.children 0 args) kwargs
        (mergeTangents idx t.children 0 args)
        (kwargs.map (fun kv => zeroTangent kv.2)) }

/-- The tuple of differentiated arguments selected by `argnums`
(`dyn_args`). -/
def dynArgs (args : List PyTree) (an : Argnums) : List PyTree :=
  an.idxList.map (fun n => args.getD n (.node .nil))

/-- The `dyn_args` tuple as a single pytree. -/
def dynTuple (args : List PyTree) (an : Argnums) : PyTree :=
  .node (PyTreeList.ofList (dynArgs args an))

/-- A Python pair, as a pytree. -/
def mkPair (a b : PyTree) : PyTree :=
  .node (.cons a (.cons b .nil))

/-- Embedding of the inner `jacfun` closure (source lines 101–116): wrap and
restrict the user function, validate the differentiated inputs' dtypes, run
the tangent-propagation call under the batched driver over the standard
basis, validate the primary output's dtypes, and unravel the stacked
trailing axis into the example argument structure, grafted over the output
structure. -/
def jacfunModel (f : UserFun) (an : Argnums) (holo hasAux : Bool)
    (args : List PyTree) (kwargs : List (String × PyTree)) : Except Err PyTree :=
  let idx := an.idxList
  let dyn := dynArgs args an
  let dynT := dynTuple args an
  let fp := mkDiffFun f args kwargs idx
  match checkInput holo dynT with
  | .error e => .error e
  | .ok _ =>
      match vmapJvp (fun t => jvpModel fp dynT t hasAux) (zeroTangent dynT) (stdBasis dynT) with
      | .error e => .error e
      | .ok r =>
          match checkOutput holo r.1.1 with
          | .error e => .error e
          | .ok _ =>
              let exampleArgs :=
                match an with
                | .single _ => dyn.getD 0 (.node .nil)
                | .many _ => dynT
              let jac := r.1.2.graft (fun a => unravel exampleArgs a)
              if hasAux then .ok (mkPair (mkPair r.1.1 r.2) jac)
              else .ok (mkPair r.1.1 jac)

/-- Embedding of `value_and_jacfwd` (source lines 93–118): check callability
eagerly, resolve `argnums`, and return the `jacfun` closure. -/
def valueAndJacfwd (f : UserFun) (an : Argnums) (holo hasAux : Bool) :
    Except Err (List PyTree → List (String × PyTree) → Except Err PyTree) :=
  if f.callable then .ok (jacfunModel f an holo hasAux)
  else .error .notCallableError

/-- Calling `value_and_jacfwd(fn, ...)(*args, **kwargs)`: the entry point's
eager failure, if any, is surfaced; otherwise the returned closure is applied
to the call arguments. -/
def runVJ (f : UserFun) (an : Argnums) (holo hasAux : Bool)
    (args : List PyTree) (kwargs : List (String × PyTree)) : Except Err PyTree :=
  match valueAndJacfwd f an holo hasAux with
  | .error e => .error e
  | .ok j => j args kwargs

/-- A tangent leaf conforms to a primal leaf when its dtype is the derived
tangent dtype and its shape matches. -/
def tangentOk (p t : Arr) : Prop :=
  t.dtype = p.dtype.tangent ∧ t.shape = p.shape

/-- The primary output of one direct primal evaluation of the user function
on the full call arguments. -/
def primalValue (f : UserFun) (args : List PyTree)
    (kwargs : List (String × PyTree)) : PyTree :=
  (f.call args kwargs).1

/-- The auxiliary output of one direct primal evaluation of the user function
on the full call arguments. -/
def auxValue (f : UserFun) (args : List PyTree)
    (kwargs : List (String × PyTree)) : PyTree :=
  (f.call args kwargs).2

/-- The output tangent of the wrapped restricted function at the zero tangent
direction (the shared, unbatched skeleton run of the batched driver). -/
def tangZero (f : UserFun) (an : Argnums) (args : List PyTree)
    (kwargs : List (String × PyTree)) : PyTree :=
  (mkDiffFun f args kwargs an.idxList).jvp (dynTuple args an)
    (zeroTangent (dynTuple args an))

/-- The per-direction output tangents over the standard basis, in canonical
order. -/
def dirTangents (f : UserFun) (an : Argnums) (args : List PyTree)
    (kwargs : List (String × PyTree)) : List PyTree :=
  (stdBasis (dynTuple args an)).map
    ((mkDiffFun f args kwargs an.idxList).jvp (dynTuple args an))

/-- The raw stacked tangent output of the batched driver: all directional
derivatives stacked along a new trailing axis. -/
def rawStacked (f : UserFun) (an : Argnums) (args : List PyTree)
    (kwargs : List (String × PyTree)) : PyTree :=
  stackTangents (tangZero f an args kwargs) (dirTangents f an args kwargs)

/-- The example structure the stacked trailing axis is unravelled into:
the single differentiated argument for an integer `argnums`, the tuple of
differentiated arguments otherwise (source line 112). -/
def exampleArgs (args : List PyTree) (an : Argnums) : PyTree :=
  match an with
  | .single _ => (dynArgs args an).getD 0 (.node .nil)
  | .many _ => dynTuple args an

/-- The Jacobian as returned: the stacked output with its trailing axis
unravelled into the example argument structure, grafted over the output
structure. -/
def jacResult (f : UserFun) (an : Argnums) (args : List PyTree)
    (kwargs : List (String × PyTree)) : PyTree :=
  (rawStacked f an args kwargs).graft (fun a => unravel (exampleArgs args an) a)

instance {ε α : Type} [DecidableEq ε] [DecidableEq α] : DecidableEq (Except ε α) :=
  fun a b =>
    match a, b with
    | .error e, .error e' => decidable_of_iff (e = e') (by simp)
    | .ok x, .ok y => decidable_of_iff (x = y) (by simp)
    | .error _, .ok _ => isFalse (by simp)
    | .ok _, .error _ => isFalse (by simp)

/-- Sum of a list of rationals (the `.sum()` reduction of the examples). -/
def sumList (l : List ℤ) : ℤ := l.foldr (· + ·) 0

/-- The documented example function `fn(x) = ((x**2).sum(), x.sum())`, as the
runtime traces it: primary output `(x**2).sum()`, auxiliary output `x.sum()`,
and the forward-mode directional derivative `sum(2 * x * t)` of the primary
output.  Without `has_aux` only the primary output is used, giving the
`fn(x) = (x**2).sum()` example. -/
def sqSumFun : UserFun :=
  { callable := true
    call := fun args _ =>
      match args.getD 0 (.node .nil) with
      | .leaf a => (.leaf ⟨.float, [], [sumList (a.data.map (fun q => q * q))]⟩,
                    .leaf ⟨.float, [], [sumList a.data]⟩)
      | t => (t, t)
    jvp := fun args _ ts _ =>
      match args.getD 0 (.node .nil), ts.getD 0 (.node .nil) with
      | .leaf a, .leaf b =>
          .leaf ⟨.float, [], [sumList (List.zipWith (fun x t => 2 * x * t) a.data b.data)]⟩
      | _, _ => .node .nil }

/-- The value component of a returned result: element `[0]` without aux,
element `[0][0]` with aux. -/
def valueComponent (ha : Bool) (r : PyTree) : Option PyTree :=
  match ha, r with
  | false, .node (.cons v (.cons _ .nil)) => some v
  | true, .node (.cons (.node (.cons v (.cons _ .nil))) (.cons _ .nil)) => some v
  | _, _ => none

/-- The aux component of a returned result: element `[0][1]` with aux. -/
def auxComponent (r : PyTree) : Option PyTree :=
  match r with
  | .node (.cons (.node (.cons _ (.cons a .nil))) (.cons _ .nil)) => some a
  | _ => none

/-- A trivial runtime function used to witness the validation checks. -/
def probeDF : DiffFun := ⟨fun p => p, fun _ t => t, fun p => p⟩

/-- A function whose primary output is a complex scalar, used to witness the
output-dtype rejection. -/
def complexOutFun : UserFun :=
  ⟨true, fun _ _ => (.leaf ⟨.complex_, [], [0]⟩, .node .nil),
   fun _ _ _ _ => .leaf ⟨.complex_, [], [0]⟩⟩

/-- A function object that cannot be invoked. -/
def uncallableFun : UserFun :=
  ⟨false, fun _ _ => (.node .nil, .node .nil), fun _ _ _ _ => .node .nil⟩

/-- A probe function returning its first argument, whose derivative reads
only the first positional tangent. -/
def posFun : UserFun :=
  ⟨true, fun args _ => (args.getD 0 (.node .nil), .node .nil),
   fun _ _ ts _ => ts.getD 0 (.node .nil)⟩

/-- The same probe, except that its derivative would misbehave whenever any
keyword-argument tangent were nonzero. -/
def posFunKw : UserFun :=
  ⟨true, fun args _ => (args.getD 0 (.node .nil), .node .nil),
   fun _ ks ts kts =>
     if kts = ks.map (fun kv => zeroTangent kv.2) then ts.getD 0 (.node .nil)
     else .node .nil⟩

/-- Total scalar element count of a leaf sequence. -/
def sumCounts (ls : List Arr) : Nat := (ls.map Arr.count).sum

/-- The length of one row of a reassembled jacobian leaf: the product of its
trailing (input-leaf) axes, the leading axes being `s`. -/
def rowLenOf (s : List Nat) (c : Arr) : Nat := (c.shape.drop s.length).prod

/-- Re-concatenate the trailing axes of a reassembled jacobian row by row, in
canonical leaf order: for each of the leading rows, the rows of all chunks in
order. -/
def concatRowsData (s : List Nat) : Nat → List Arr → List ℤ
  | 0, _ => []
  | p + 1, cs =>
      cs.flatMap (fun c => c.data.take (rowLenOf s c)) ++
        concatRowsData s p (cs.map (fun c => { c with data := c.data.drop (rowLenOf s c) }))

/-- Flatten the trailing axes of a reassembled jacobian structure back into a
single stacked array, in the canonical order of the structure's leaves. -/
def reflattenLast (s : List Nat) (dt : DType) (t : PyTree) : Arr :=
  ⟨dt, s ++ [(t.leaves.map (fun c => rowLenOf s c)).sum],
   concatRowsData s s.prod t.leaves⟩

/-- Two structured values with the same descriptor and the same leaf shapes
(in order): the conformance the runtime guarantees between an output tangent
and the primary output. -/
def sameSkeleton (a b : PyTree) : Prop :=
  a.struct = b.struct ∧ a.leaves.map Arr.shape = b.leaves.map Arr.shape

/-- An identity-like probe function on its first argument whose derivative
trivially has the primary output's skeleton. -/
def nestFun : UserFun :=
  ⟨true, fun args _ => (args.getD 0 (.node .nil), .node .nil),
   fun as _ _ _ => as.getD 0 (.node .nil)⟩

/-- A nested example input with two leaves of different shapes. -/
def exampleIn : PyTree :=
  .node (.cons (.leaf ⟨.float, [2], [1, 2]⟩) (.cons (.leaf ⟨.float, [], [3]⟩) .nil))

theorem PyTreeList.toList_ofList (l : List PyTree) :
    PyTreeList.toList (PyTreeList.ofList l) = l := by
  induction l with
  | nil => rfl
  | cons h t ih => simp [PyTreeList.ofList, PyTreeList.toList, ih]

theorem Arr.count_zeroLeaf (a : Arr) : (zeroLeaf a).count = a.count := by
  simp [zeroLeaf, Arr.count]

mutual
theorem PyTree.leaves_mapLeaves (f : Arr → Arr) :
    ∀ (t : PyTree), (t.mapLeaves f).leaves = t.leaves.map f
  | .leaf a => by simp [PyTree.mapLeaves, PyTree.leaves]
  | .node ts => by
      simp [PyTree.mapLeaves, PyTree.leaves, PyTreeList.leaves_mapLeaves_list f ts]
theorem PyTreeList.leaves_mapLeaves_list (f : Arr → Arr) :
    ∀ (ts : PyTreeList), (ts.mapLeaves f).leaves = ts.leaves.map f
  | .nil => by simp [PyTreeList.mapLeaves, PyTreeList.leaves]
  | .cons hd tl => by
      simp [PyTreeList.mapLeaves, PyTreeList.leaves,
        PyTree.leaves_mapLeaves f hd, PyTreeList.leaves_mapLeaves_list f tl]
end

mutual
theorem PyTree.struct_mapLeaves (f : Arr → Arr) :
    ∀ (t : PyTree), (t.mapLeaves f).struct = t.struct
  | .leaf a => by simp [PyTree.mapLeaves, PyTree.struct]
  | .node ts => by
      simp [PyTree.mapLeaves, PyTree.struct, PyTreeList.struct_mapLeaves_list f ts]
theorem PyTreeList.struct_mapLeaves_list (f : Arr → Arr) :
    ∀ (ts : PyTreeList), (ts.mapLeaves f).struct = ts.struct
  | .nil => by simp [PyTreeList.mapLeaves, PyTreeList.struct]
  | .cons hd tl => by
      simp [PyTreeList.mapLeaves, PyTreeList.struct,
        PyTree.struct_mapLeaves f hd, PyTreeList.struct_mapLeaves_list f tl]
end

mutual
theorem PyTree.struct_rebuild :
    ∀ (t : PyTree) (ls : List Arr), (t.rebuild ls).1.struct = t.struct
  | .leaf a, ls => by
      cases ls with
      | nil => simp [PyTree.rebuild, PyTree.struct]
      | cons b rest => simp [PyTree.rebuild, PyTree.struct]
  | .node ts, ls => by
      simp [PyTree.rebuild, PyTree.struct, PyTreeList.struct_rebuild_list ts ls]
theorem PyTreeList.struct_rebuild_list :
    ∀ (ts : PyTreeList) (ls : List Arr), (ts.rebuild ls).1.struct = ts.struct
  | .nil, ls => by simp [PyTreeList.rebuild, PyTreeList.struct]
  | .cons hd tl, ls => by
      simp [PyTreeList.rebuild, PyTreeList.struct, PyTree.struct_rebuild hd ls,
        PyTreeList.struct_rebuild_list tl (PyTree.rebuild hd ls).2]
end

mutual
theorem PyTree.rebuild_spec :
    ∀ (t : PyTree) (ls : List Arr), t.leaves.length ≤ ls.length →
      (t.rebuild ls).1.leaves = ls.take t.leaves.length ∧
        (t.rebuild ls).2 = ls.drop t.leaves.length
  | .leaf a, ls, hle => by
      cases ls with
      | nil => simp [PyTree.leaves] at hle
      | cons b rest => simp [PyTree.rebuild, PyTree.leaves]
  | .node ts, ls, hle => by
      simpa [PyTree.rebuild, PyTree.leaves] using
        PyTreeList.rebuild_spec_list ts ls (by simpa [PyTree.leaves] using hle)
theorem PyTreeList.rebuild_spec_list :
    ∀ (ts : PyTreeList) (ls : List Arr), ts.leaves.length ≤ ls.length →
      (ts.rebuild ls).1.leaves = ls.take ts.leaves.length ∧
        (ts.rebuild ls).2 = ls.drop ts.leaves.length
  | .nil, ls, hle => by simp [PyTreeList.rebuild, PyTreeList.leaves]
  | .cons hd tl, ls, hle => by
      have hlen : hd.leaves.length + tl.leaves.length ≤ ls.length := by
        simpa [PyTreeList.leaves] using hle
      have h1 := PyTree.rebuild_spec hd ls (le_trans (Nat.le_add_right _ _) hlen)
      have h2 := PyTreeList.rebuild_spec_list tl (PyTree.rebuild hd ls).2 (by
        rw [h1.2]
        simp only [List.length_drop]
        omega)
      refine ⟨?_, ?_⟩
      · simp only [PyTreeList.rebuild, PyTreeList.leaves, List.length_append]
        rw [h1.1, h2.1, h1.2, List.take_add]
      · simp only [PyTreeList.rebuild, PyTreeList.leaves, List.length_append]
        rw [h2.2, h1.2, List.drop_drop, Nat.add_comm]
end

mutual
theorem PyTree.graft_leaves (g : Arr → PyTree) :
    ∀ (t : PyTree), (t.graft g).leaves = t.leaves.flatMap (fun a => (g a).leaves)
  | .leaf a => by simp [PyTree.graft, PyTree.leaves]
  | .node ts => by
      simp [PyTree.graft, PyTree.leaves, PyTreeList.graft_leaves_list g ts]
theorem PyTreeList.graft_leaves_list (g : Arr → PyTree) :
    ∀ (ts : PyTreeList), (ts.graft g).leaves = ts.leaves.flatMap (fun a => (g a).leaves)
  | .nil => by simp [PyTreeList.graft, PyTreeList.leaves]
  | .cons hd tl => by
      simp [PyTreeList.graft, PyTreeList.leaves, PyTree.graft_leaves g hd,
        PyTreeList.graft_leaves_list g tl]
end

mutual
theorem PyTree.graft_struct (g : Arr → PyTree) (e : TreeDef)
    (hg : ∀ a, (g a).struct = e) :
    ∀ (t : PyTree), (t.graft g).struct = t.struct.graftAll e
  | .leaf a => by simp [PyTree.graft, PyTree.struct, TreeDef.graftAll, hg a]
  | .node ts => by
      simp [PyTree.graft, PyTree.struct, TreeDef.graftAll,
        PyTreeList.graft_struct_list g e hg ts]
theorem PyTreeList.graft_struct_list (g : Arr → PyTree) (e : TreeDef)
    (hg : ∀ a, (g a).struct = e) :
    ∀ (ts : PyTreeList), (ts.graft g).struct = TreeDefList.graftAll ts.struct e
  | .nil => by simp [PyTreeList.graft, PyTreeList.struct, TreeDefList.graftAll]
  | .cons hd tl => by
      simp [PyTreeList.graft, PyTreeList.struct, TreeDefList.graftAll,
        PyTree.graft_struct g e hg hd, PyTreeList.graft_struct_list g e hg tl]
end

mutual
theorem PyTree.parts_graft (g : Arr → PyTree) :
    ∀ (t : PyTree), TreeDef.parts t.struct (t.graft g) = t.leaves.map g
  | .leaf a => by simp [PyTree.graft, PyTree.struct, TreeDef.parts, PyTree.leaves]
  | .node ts => by
      simp [PyTree.graft, PyTree.struct, TreeDef.parts, PyTree.leaves,
        PyTreeList.parts_graft_list g ts]
theorem PyTreeList.parts_graft_list (g : Arr → PyTree) :
    ∀ (ts : PyTreeList), TreeDefList.parts ts.struct (ts.graft g) = ts.leaves.map g
  | .nil => by simp [PyTreeList.graft, PyTreeList.struct, TreeDefList.parts, PyTreeList.leaves]
  | .cons hd tl => by
      simp [PyTreeList.graft, PyTreeList.struct, TreeDefList.parts, PyTreeList.leaves,
        PyTree.parts_graft g hd, PyTreeList.parts_graft_list g tl]
end

theorem PyTreeList.leaves_ofList (l : List PyTree) :
    PyTreeList.leaves (PyTreeList.ofList l) = l.flatMap PyTree.leaves := by
  induction l with
  | nil => simp [PyTreeList.ofList, PyTreeList.leaves]
  | cons hd tl ih => simp [PyTreeList.ofList, PyTreeList.leaves, ih]

theorem dynTuple_leaves (args : List PyTree) (an : Argnums) :
    (dynTuple args an).leaves = (dynArgs args an).flatMap PyTree.leaves := by
  simp [dynTuple, PyTree.leaves, PyTreeList.leaves_ofList]

theorem dynTuple_children (args : List PyTree) (an : Argnums) :
    (dynTuple args an).children = dynArgs args an := by
  simp [dynTuple, PyTree.children, PyTreeList.toList_ofList]

theorem pairCheck_none {p t : Arr} (h : tangentOk p t) : pairCheck p t = none := by
  obtain ⟨h1, h2⟩ := h
  simp [pairCheck, h1, h2]

theorem findSome?_eq_none_of_all {α β : Type} (f : α → Option β) (l : List α)
    (h : ∀ x ∈ l, f x = none) : l.findSome? f = none := by
  induction l with
  | nil => rfl
  | cons a t ih =>
      rw [List.findSome?_cons, h a (by simp)]
      exact ih (fun x hx => h x (by simp [hx]))

theorem PyTree.isSeq_of_struct {a b : PyTree} (h : a.struct = b.struct) :
    a.isSeq = b.isSeq := by
  cases a <;> cases b <;> simp_all [PyTree.struct, PyTree.isSeq]

/-- Eager checks of `_jvp` pass whenever the primal is sequence-like, the
tangent has the same descriptor, and every paired leaf conforms. -/
theorem jvpChecks_none {p t : PyTree} (hseq : p.isSeq = true)
    (hstruct : t.struct = p.struct)
    (hleaves : List.Forall₂ tangentOk p.leaves t.leaves) :
    jvpChecks p t = none := by
  have hseq' : t.isSeq = true := (PyTree.isSeq_of_struct hstruct).trans hseq
  rw [jvpChecks, hseq, hseq']
  rw [if_neg (by simp), if_neg (by simp [hstruct])]
  exact findSome?_eq_none_of_all _ _
    (fun x hx => pairCheck_none ((List.forall₂_iff_zip.mp hleaves).2 hx))

theorem zeroLeaf_tangentOk (a : Arr) : tangentOk a (zeroLeaf a) := by
  simp [tangentOk, zeroLeaf]

theorem forall₂_tangentOk_map_zeroLeaf (ls : List Arr) :
    List.Forall₂ tangentOk ls (ls.map zeroLeaf) := by
  induction ls with
  | nil => simp
  | cons a t ih => exact List.Forall₂.cons (zeroLeaf_tangentOk a) ih

/-- The zero tangent structure conforms to its primal structure. -/
theorem jvpChecks_zeroTangent {p : PyTree} (hseq : p.isSeq = true) :
    jvpChecks p (zeroTangent p) = none := by
  refine jvpChecks_none hseq (PyTree.struct_mapLeaves _ p) ?_
  rw [zeroTangent, PyTree.leaves_mapLeaves]
  exact forall₂_tangentOk_map_zeroLeaf p.leaves

/-- Every leaf list produced by the basis generator pairs conformant tangent
leaves with the primal leaves. -/
theorem basisLists_forall₂ (ls : List Arr) :
    ∀ bl ∈ basisLists ls, List.Forall₂ tangentOk ls bl := by
  induction ls with
  | nil => simp [basisLists]
  | cons a rest ih =>
      intro bl hbl
      rw [basisLists, List.mem_append] at hbl
      rcases hbl with hhot | hz
      · rw [List.mem_map] at hhot
        obtain ⟨j, _, rfl⟩ := hhot
        exact List.Forall₂.cons (by simp [tangentOk]) (forall₂_tangentOk_map_zeroLeaf rest)
      · rw [List.mem_map] at hz
        obtain ⟨bl', hbl', rfl⟩ := hz
        exact List.Forall₂.cons (zeroLeaf_tangentOk a) (ih bl' hbl')

theorem basisLists_length (ls : List Arr) :
    (basisLists ls).length = (ls.map Arr.diffCount).sum := by
  induction ls with
  | nil => simp [basisLists]
  | cons a rest ih => simp [basisLists, ih]

/-- The number of basis directions is the total number of differentiable
scalar degrees of freedom of the structure. -/
theorem stdBasis_length (x : PyTree) :
    (stdBasis x).length = (x.leaves.map Arr.diffCount).sum := by
  simp [stdBasis, basisLists_length]

/-- Every standard basis direction passes `_jvp`'s eager checks against its
primal structure. -/
theorem jvpChecks_stdBasis {x : PyTree} (hseq : x.isSeq = true) :
    ∀ b ∈ stdBasis x, jvpChecks x b = none := by
  intro b hb
  rw [stdBasis, List.mem_map] at hb
  obtain ⟨bl, hbl, rfl⟩ := hb
  have hf := basisLists_forall₂ x.leaves bl hbl
  have hlen : x.leaves.length ≤ bl.length := le_of_eq hf.length_eq
  have hspec := PyTree.rebuild_spec x bl hlen
  refine jvpChecks_none hseq (PyTree.struct_rebuild x bl) ?_
  rw [hspec.1, hf.length_eq, List.take_length]
  exact hf

/-- If every direction passes the checks, collecting the batch succeeds and
returns exactly the per-direction output tangents. -/
theorem collectTangents_ok (fp : DiffFun) (p : PyTree) (ha : Bool)
    (bs : List PyTree) (h : ∀ b ∈ bs, jvpChecks p b = none) :
    collectTangents (fun t => jvpModel fp p t ha) bs = .ok (bs.map (fun b => fp.jvp p b)) := by
  induction bs with
  | nil => rfl
  | cons b rest ih =>
      rw [collectTangents, jvpModel, h b (by simp), ih (fun x hx => h x (by simp [hx]))]
      simp

theorem mergeArgs_select (idx : List Nat) (full : List PyTree) :
    ∀ (suffix : List PyTree) (start : Nat), suffix = full.drop start →
      mergeArgs idx (idx.map (fun n => full.getD n (.node .nil))) start suffix = suffix := by
  intro suffix
  induction suffix with
  | nil => intro start _; rfl
  | cons a rest ih =>
      intro start hs
      have h0 : full[start]? = some a := by
        have hd := List.getElem?_drop full start 0
        rw [Nat.add_zero] at hd
        rw [← hd, ← hs]
        simp
      have ha : full.getD start (.node .nil) = a := by
        rw [List.getD_eq_getElem?_getD, h0]
        rfl
      have hrest : rest = full.drop (start + 1) := by
        have ht := List.tail_drop full start
        rw [← hs] at ht
        simpa using ht
      rw [mergeArgs, ih (start + 1) hrest]
      by_cases hm : start ∈ idx
      · have hlt : idx.indexOf start < idx.length := List.indexOf_lt_length.mpr hm
        rw [if_pos hm, List.getD_eq_getElem?_getD, List.getElem?_map,
          List.getElem?_eq_getElem hlt]
        simp [List.getElem_indexOf hlt, ha, h0]
      · rw [if_neg hm]

/-- Re-merging the selected arguments back into the full argument list is the
identity: `argnums_partial` followed by application to `dyn_args` calls the
original function on the original arguments. -/
theorem mergeArgs_dynArgs (args : List PyTree) (an : Argnums) :
    mergeArgs an.idxList (dynArgs args an) 0 args = args := by
  have h := mergeArgs_select an.idxList args args 0 (by simp)
  simpa [dynArgs] using h

theorem mkDiffFun_eval (f : UserFun) (args : List PyTree)
    (kwargs : List (String × PyTree)) (an : Argnums) :
    (mkDiffFun f args kwargs an.idxList).eval (dynTuple args an) =
      primalValue f args kwargs := by
  simp [mkDiffFun, dynTuple_children, mergeArgs_dynArgs, primalValue]

theorem mkDiffFun_aux (f : UserFun) (args : List PyTree)
    (kwargs : List (String × PyTree)) (an : Argnums) :
    (mkDiffFun f args kwargs an.idxList).aux (dynTuple args an) =
      auxValue f args kwargs := by
  simp [mkDiffFun, dynTuple_children, mergeArgs_dynArgs, auxValue]

/-- Characterization of one call of the returned `jacfun`: the input check,
then (the batched tangent-propagation run never failing on the standard basis)
the output check on the primal value, then the assembled result. -/
theorem jacfunModel_run (f : UserFun) (an : Argnums) (holo ha : Bool)
    (args : List PyTree) (kwargs : List (String × PyTree)) :
    jacfunModel f an holo ha args kwargs =
      match checkInput holo (dynTuple args an) with
      | .error e => .error e
      | .ok _ =>
          match checkOutput holo (primalValue f args kwargs) with
          | .error e => .error e
          | .ok _ =>
              .ok (if ha then
                    mkPair (mkPair (primalValue f args kwargs) (auxValue f args kwargs))
                      (jacResult f an args kwargs)
                  else mkPair (primalValue f args kwargs) (jacResult f an args kwargs)) := by
  have hseq : (dynTuple args an).isSeq = true := rfl
  have hpush : jvpModel (mkDiffFun f args kwargs an.idxList) (dynTuple args an)
      (zeroTangent (dynTuple args an)) ha =
      .ok (((mkDiffFun f args kwargs an.idxList).eval (dynTuple args an),
            (mkDiffFun f args kwargs an.idxList).jvp (dynTuple args an)
              (zeroTangent (dynTuple args an))),
           (mkDiffFun f args kwargs an.idxList).aux (dynTuple args an)) := by
    rw [jvpModel, jvpChecks_zeroTangent hseq]
  have hcoll := collectTangents_ok (mkDiffFun f args kwargs an.idxList)
    (dynTuple args an) ha (stdBasis (dynTuple args an)) (jvpChecks_stdBasis hseq)
  simp only [jacfunModel, vmapJvp, hpush, hcoll, mkDiffFun_eval, mkDiffFun_aux]
  cases checkInput holo (dynTuple args an) with
  | error e => rfl
  | ok u =>
      cases checkOutput holo (primalValue f args kwargs) with
      | error e => rfl
      | ok v =>
          simp only [jacResult, rawStacked, tangZero, dirTangents, exampleArgs]
          cases an <;> cases ha <;> rfl

/-- Shape of any successful result of the returned closure: the assembled
pair (value-with-optional-aux, jacobian). -/
theorem runVJ_ok_shape (f : UserFun) (an : Argnums) (holo ha : Bool)
    (args : List PyTree) (kwargs : List (String × PyTree)) (r : PyTree)
    (h : runVJ f an holo ha args kwargs = .ok r) :
    r = (if ha then
          mkPair (mkPair (primalValue f args kwargs) (auxValue f args kwargs))
            (jacResult f an args kwargs)
        else mkPair (primalValue f args kwargs) (jacResult f an args kwargs)) := by
  rw [runVJ] at h
  cases hc : f.callable with
  | false => rw [valueAndJacfwd, if_neg (by simp [hc])] at h; exact absurd h (by simp)
  | true =>
      rw [valueAndJacfwd, if_pos hc] at h
      have h2 : jacfunModel f an holo ha args kwargs = .ok r := h
      rw [jacfunModel_run] at h2
      cases hin : checkInput holo (dynTuple args an) with
      | error e => rw [hin] at h2; exact absurd h2 (by simp)
      | ok u =>
          rw [hin] at h2
          cases hout : checkOutput holo (primalValue f args kwargs) with
          | error e => rw [hout] at h2; exact absurd h2 (by simp)
          | ok v =>
              rw [hout] at h2
              simp only [Except.ok.injEq] at h2
              exact h2.symm

/-- C1: for every function and input on which the returned closure succeeds,
the value component of the result — element [0] without aux, element [0][0]
with aux — is exactly the primary output of one direct primal evaluation of
the function on the same arguments (equality in the exact-arithmetic model is
the spec's bit-identity). -/
theorem claim_C1_value_identity (f : UserFun) (an : Argnums) (holo ha : Bool)
    (args : List PyTree) (kwargs : List (String × PyTree)) (r : PyTree)
    (h : runVJ f an holo ha args kwargs = .ok r) :
    valueComponent ha r = some (primalValue f args kwargs) := by
  have hr := runVJ_ok_shape f an holo ha args kwargs r h
  cases ha with
  | false => rw [hr]; rfl
  | true => rw [hr]; rfl

/-- Witness for C1 at the documented example input. -/
theorem claim_C1_witness :
    valueComponent false
        (mkPair (.leaf ⟨.float, [], [5]⟩) (.leaf ⟨.float, [3], [0, 2, 4]⟩)) =
      some (primalValue sqSumFun [PyTree.leaf ⟨.float, [3], [0, 1, 2]⟩] []) :=
  claim_C1_value_identity sqSumFun (.single 0) false false
    [PyTree.leaf ⟨.float, [3], [0, 1, 2]⟩] []
    (mkPair (.leaf ⟨.float, [], [5]⟩) (.leaf ⟨.float, [3], [0, 2, 4]⟩)) (by decide)

/-- C2: for `fn(x) = (x**2).sum()` at `x = [0., 1., 2.]`, the call returns
value `5.0` and jacobian `[0., 2., 4.]`. -/
theorem claim_C2_example :
    runVJ sqSumFun (.single 0) false false [PyTree.leaf ⟨.float, [3], [0, 1, 2]⟩] [] =
      .ok (mkPair (.leaf ⟨.float, [], [5]⟩) (.leaf ⟨.float, [3], [0, 2, 4]⟩)) := by
  decide

/-- C3: with `has_aux=True` the function's auxiliary output is passed through
unchanged from the primal evaluation (only the primary output is
differentiated), and for `fn(x) = ((x**2).sum(), x.sum())` at `x = [0., 1., 2.]`
the call returns value `5.0`, aux `3.0` and jacobian `[0., 2., 4.]`. -/
theorem claim_C3_aux_passthrough :
    (∀ (f : UserFun) (an : Argnums) (holo : Bool) (args : List PyTree)
        (kwargs : List (String × PyTree)) (r : PyTree),
      runVJ f an holo true args kwargs = .ok r →
        auxComponent r = some (auxValue f args kwargs)) ∧
    runVJ sqSumFun (.single 0) false true [PyTree.leaf ⟨.float, [3], [0, 1, 2]⟩] [] =
      .ok (mkPair (mkPair (.leaf ⟨.float, [], [5]⟩) (.leaf ⟨.float, [], [3]⟩))
        (.leaf ⟨.float, [3], [0, 2, 4]⟩)) := by
  constructor
  · intro f an holo args kwargs r h
    have hr := runVJ_ok_shape f an holo true args kwargs r h
    rw [hr]
    rfl
  · decide

/-- Witness for C3's universally quantified aux-passthrough clause at the
documented example input. -/
theorem claim_C3_witness :
    auxComponent
        (mkPair (mkPair (.leaf ⟨.float, [], [5]⟩) (.leaf ⟨.float, [], [3]⟩))
          (.leaf ⟨.float, [3], [0, 2, 4]⟩)) =
      some (auxValue sqSumFun [PyTree.leaf ⟨.float, [3], [0, 1, 2]⟩] []) :=
  claim_C3_aux_passthrough.1 sqSumFun (.single 0) false
    [PyTree.leaf ⟨.float, [3], [0, 1, 2]⟩] []
    (mkPair (mkPair (.leaf ⟨.float, [], [5]⟩) (.leaf ⟨.float, [], [3]⟩))
      (.leaf ⟨.float, [3], [0, 2, 4]⟩)) (by decide)

/-- C4: every successful call of the returned closure has return shape
`(value, jacobian)` when `has_aux=False` and `((value, aux), jacobian)` when
`has_aux=True`. -/
theorem claim_C4_return_shape (f : UserFun) (an : Argnums) (holo ha : Bool)
    (args : List PyTree) (kwargs : List (String × PyTree)) (r : PyTree)
    (h : runVJ f an holo ha args kwargs = .ok r) :
    (ha = false → ∃ v j, r = mkPair v j) ∧
    (ha = true → ∃ v a j, r = mkPair (mkPair v a) j) := by
  have hr := runVJ_ok_shape f an holo ha args kwargs r h
  cases ha with
  | false =>
      refine ⟨fun _ => ?_, fun hcon => by simp at hcon⟩
      exact ⟨primalValue f args kwargs, jacResult f an args kwargs, by simpa using hr⟩
  | true =>
      refine ⟨fun hcon => by simp at hcon, fun _ => ?_⟩
      exact ⟨primalValue f args kwargs, auxValue f args kwargs,
        jacResult f an args kwargs, by simpa using hr⟩

/-- Witness for C4 at the documented example input. -/
theorem claim_C4_witness :
    ∃ v j, mkPair (.leaf ⟨.float, [], [5]⟩) (.leaf ⟨.float, [3], [0, 2, 4]⟩) = mkPair v j :=
  (claim_C4_return_shape sqSumFun (.single 0) false false
    [PyTree.leaf ⟨.float, [3], [0, 1, 2]⟩] []
    (mkPair (.leaf ⟨.float, [], [5]⟩) (.leaf ⟨.float, [3], [0, 2, 4]⟩))
    (by decide)).1 rfl

/-- C6: the tangent-propagation primitive's eager validation — non-sequence
primals or tangents and descriptor disagreement fail with
`ArgumentStructureError`; otherwise the first offending leaf pair in scan
order fails with `DtypeMismatchError` (wrong tangent dtype, checked first) or
`ShapeMismatchError` (shape disagreement); all before any propagation work
(the conclusions hold for every runtime function `f`, whose evaluation is
never consulted). -/
theorem claim_C6_jvp_validation (f : DiffFun) (p t : PyTree) (ha : Bool) :
    (¬ (p.isSeq = true ∧ t.isSeq = true) →
      jvpModel f p t ha = .error .argumentStructureError) ∧
    (p.isSeq = true → t.isSeq = true → p.struct ≠ t.struct →
      jvpModel f p t ha = .error .argumentStructureError) ∧
    (∀ e, p.isSeq = true → t.isSeq = true → p.struct = t.struct →
      (p.leaves.zip t.leaves).findSome? (fun pt => pairCheck pt.1 pt.2) = some e →
      jvpModel f p t ha = .error e) ∧
    (p.isSeq = true → t.isSeq = true → p.struct = t.struct →
      (p.leaves.zip t.leaves).findSome? (fun pt => pairCheck pt.1 pt.2) = none →
      jvpModel f p t ha = .ok ((f.eval p, f.jvp p t), f.aux p)) := by
  refine ⟨?_, ?_, ?_, ?_⟩
  · intro h
    rw [jvpModel, jvpChecks, if_pos (by simp only [Bool.and_eq_true]; exact h)]
  · intro h1 h2 h3
    rw [jvpModel, jvpChecks, if_neg (by simp [h1, h2]), if_pos h3]
  · intro e h1 h2 h3 h4
    rw [jvpModel, jvpChecks, if_neg (by simp [h1, h2]), if_neg (by simp [h3]), h4]
  · intro h1 h2 h3 h4
    rw [jvpModel, jvpChecks, if_neg (by simp [h1, h2]), if_neg (by simp [h3]), h4]

/-- Witness for C6: each validation failure (and the success case) at concrete
inputs. -/
theorem claim_C6_witness :
    jvpModel probeDF (.leaf ⟨.float, [2], [1, 2]⟩) (.leaf ⟨.float, [2], [0, 0]⟩) false =
      .error .argumentStructureError ∧
    jvpModel probeDF (.node (.cons (.leaf ⟨.float, [2], [1, 2]⟩) .nil))
      (.node (.cons (.leaf ⟨.float, [2], [0, 0]⟩) (.cons (.leaf ⟨.float, [2], [0, 0]⟩) .nil))) false =
      .error .argumentStructureError ∧
    jvpModel probeDF (.node (.cons (.leaf ⟨.float, [2], [1, 2]⟩) .nil))
      (.node (.cons (.leaf ⟨.int_, [2], [0, 0]⟩) .nil)) false =
      .error .dtypeMismatchError ∧
    jvpModel probeDF (.node (.cons (.leaf ⟨.float, [2], [1, 2]⟩) .nil))
      (.node (.cons (.leaf ⟨.float, [3], [0, 0, 0]⟩) .nil)) false =
      .error .shapeMismatchError ∧
    jvpModel probeDF (.node (.cons (.leaf ⟨.float, [2], [1, 2]⟩) .nil))
      (.node (.cons (.leaf ⟨.float, [2], [0, 1]⟩) .nil)) false =
      .ok ((.node (.cons (.leaf ⟨.float, [2], [1, 2]⟩) .nil),
            .node (.cons (.leaf ⟨.float, [2], [0, 1]⟩) .nil)),
           .node (.cons (.leaf ⟨.float, [2], [1, 2]⟩) .nil)) := by
  refine ⟨?_, ?_, ?_, ?_, ?_⟩
  · exact (claim_C6_jvp_validation probeDF _ _ false).1 (by decide)
  · exact (claim_C6_jvp_validation probeDF _ _ false).2.1 (by decide) (by decide) (by decide)
  · exact (claim_C6_jvp_validation probeDF _ _ false).2.2.1 .dtypeMismatchError
      (by decide) (by decide) (by decide) (by decide)
  · exact (claim_C6_jvp_validation probeDF _ _ false).2.2.1 .shapeMismatchError
      (by decide) (by decide) (by decide) (by decide)
  · exact (claim_C6_jvp_validation probeDF _ _ false).2.2.2
      (by decide) (by decide) (by decide) (by decide)

/-- C7: without `holomorphic`, an integer-dtype differentiated input leaf is
rejected with `InputDtypeError` no matter what the function would compute
(the check precedes the batched driver), and a complex-dtype leaf in the
primary output is rejected with `OutputDtypeError` once the value is known:
the call returns the error instead of any jacobian. -/
theorem claim_C7_dtype_rejection (f : UserFun) (an : Argnums) (ha : Bool)
    (args : List PyTree) (kwargs : List (String × PyTree))
    (hc : f.callable = true) :
    ((∃ a ∈ (dynTuple args an).leaves, a.dtype = .int_) →
      runVJ f an false ha args kwargs = .error .inputDtypeError) ∧
    ((dynTuple args an).leaves.all (fun a => a.dtype.inexact) = true →
      (∃ a ∈ (primalValue f args kwargs).leaves, a.dtype = .complex_) →
      runVJ f an false ha args kwargs = .error .outputDtypeError) := by
  have hrun : runVJ f an false ha args kwargs = jacfunModel f an false ha args kwargs := by
    rw [runVJ, valueAndJacfwd, if_pos hc]
  constructor
  · rintro ⟨a, hmem, hdt⟩
    have hin : checkInput false (dynTuple args an) = .error .inputDtypeError := by
      rw [checkInput, if_neg (by simp), if_neg ?_]
      intro hall
      have := List.all_eq_true.mp hall a hmem
      rw [hdt] at this
      exact absurd this (by simp [DType.inexact])
    rw [hrun, jacfunModel_run, hin]
  · rintro hall ⟨a, hmem, hdt⟩
    have hin : checkInput false (dynTuple args an) = .ok () := by
      rw [checkInput, if_neg (by simp), if_pos hall]
    have hout : checkOutput false (primalValue f args kwargs) = .error .outputDtypeError := by
      rw [checkOutput, if_neg (by simp), if_neg ?_]
      intro hall2
      have := List.all_eq_true.mp hall2 a hmem
      rw [hdt] at this
      exact absurd this (by simp)
    rw [hrun, jacfunModel_run, hin, hout]

/-- Witness for C7: an integer input is rejected before differentiation, a
complex primary output after evaluation. -/
theorem claim_C7_witness :
    runVJ sqSumFun (.single 0) false false [PyTree.leaf ⟨.int_, [2], [1, 2]⟩] [] =
      .error .inputDtypeError ∧
    runVJ complexOutFun (.single 0) false false [PyTree.leaf ⟨.float, [1], [0]⟩] [] =
      .error .outputDtypeError := by
  constructor
  · exact (claim_C7_dtype_rejection sqSumFun (.single 0) false
      [PyTree.leaf ⟨.int_, [2], [1, 2]⟩] [] rfl).1 (by decide)
  · exact (claim_C7_dtype_rejection complexOutFun (.single 0) false
      [PyTree.leaf ⟨.float, [1], [0]⟩] [] rfl).2 (by decide) (by decide)

/-- C8: a differentiated input with zero scalar degrees of freedom (here a
zero-element array) produces an empty basis and a successful call whose
jacobian has a trailing axis of size 0. -/
theorem claim_C8_zero_dof :
    stdBasis (dynTuple [PyTree.leaf ⟨.float, [0], []⟩] (.single 0)) = [] ∧
    runVJ sqSumFun (.single 0) false false [PyTree.leaf ⟨.float, [0], []⟩] [] =
      .ok (mkPair (.leaf ⟨.float, [], [0]⟩) (.leaf ⟨.float, [0], []⟩)) := by
  exact ⟨by decide, by decide⟩

/-- C9: the entry point checks callability eagerly: an uncallable function is
rejected with `NotCallableError` at `value_and_jacfwd` time itself — before
argument selection, dtype validation or any jacobian work, all of which live
in the closure that is only produced in the callable case. -/
theorem claim_C9_callable_check (f : UserFun) (an : Argnums) (holo ha : Bool) :
    (f.callable = false → valueAndJacfwd f an holo ha = .error .notCallableError) ∧
    (f.callable = true → valueAndJacfwd f an holo ha = .ok (jacfunModel f an holo ha)) := by
  constructor <;> intro hc <;> simp [valueAndJacfwd, hc]

/-- Witness for C9 at an uncallable function object. -/
theorem claim_C9_witness :
    valueAndJacfwd uncallableFun (.single 0) false false = .error .notCallableError :=
  (claim_C9_callable_check uncallableFun (.single 0) false false).1 rfl

/-- C10: keyword arguments are closed over as fixed values only.  The number
of basis directions is exactly the differentiable degrees of freedom of the
`argnums`-selected positional arguments (keyword arguments contribute
nothing), and the whole result depends on the function's forward derivative
only at zero keyword-argument tangents: two functions agreeing there (with
the same call map) are indistinguishable, so no jacobian entry can reflect a
keyword argument. -/
theorem claim_C10_kwargs_fixed :
    (∀ (args : List PyTree) (an : Argnums),
      (stdBasis (dynTuple args an)).length =
        (((dynArgs args an).flatMap PyTree.leaves).map Arr.diffCount).sum) ∧
    (∀ (f g : UserFun) (an : Argnums) (holo ha : Bool) (args : List PyTree)
        (kwargs : List (String × PyTree)),
      f.callable = g.callable → f.call = g.call →
      (∀ as ks ts, f.jvp as ks ts (ks.map (fun kv => zeroTangent kv.2)) =
                   g.jvp as ks ts (ks.map (fun kv => zeroTangent kv.2))) →
      runVJ f an holo ha args kwargs = runVJ g an holo ha args kwargs) := by
  constructor
  · intro args an
    rw [stdBasis_length, dynTuple_leaves]
  · intro f g an holo ha args kwargs hcb hcall hjvp
    have hmk : mkDiffFun f args kwargs an.idxList = mkDiffFun g args kwargs an.idxList := by
      unfold mkDiffFun
      rw [hcall]
      congr 1
      funext p t
      exact hjvp _ _ _
    rw [runVJ, runVJ, valueAndJacfwd, valueAndJacfwd, hcb]
    cases hgc : g.callable
    · simp
    · simp only [if_pos rfl, reduceIte]
      simp only [jacfunModel, hmk, hcall]

/-- Witness for C10: the basis size of a concrete call counts only the
selected positional argument, and the keyword-sensitive variant is
indistinguishable on a call carrying a keyword argument. -/
theorem claim_C10_witness :
    (stdBasis (dynTuple [PyTree.leaf ⟨.float, [3], [0, 1, 2]⟩]
        (.single 0))).length =
      (((dynArgs [PyTree.leaf ⟨.float, [3], [0, 1, 2]⟩]
        (.single 0)).flatMap PyTree.leaves).map Arr.diffCount).sum ∧
    runVJ posFun (.single 0) false false [PyTree.leaf ⟨.float, [2], [3, 4]⟩]
        [("k", PyTree.leaf ⟨.float, [2], [7, 8]⟩)] =
      runVJ posFunKw (.single 0) false false [PyTree.leaf ⟨.float, [2], [3, 4]⟩]
        [("k", PyTree.leaf ⟨.float, [2], [7, 8]⟩)] := by
  constructor
  · exact claim_C10_kwargs_fixed.1 [PyTree.leaf ⟨.float, [3], [0, 1, 2]⟩] (.single 0)
  · exact claim_C10_kwargs_fixed.2 posFun posFunKw (.single 0) false false
      [PyTree.leaf ⟨.float, [2], [3, 4]⟩] [("k", PyTree.leaf ⟨.float, [2], [7, 8]⟩)]
      rfl rfl (fun as ks ts => by simp [posFun, posFunKw])

theorem rowSlices_succ_take (d : List ℤ) (rowLen off c p : Nat)
    (h : off + c ≤ d.length) :
    (rowSlices d rowLen off c (p + 1)).take c = (d.drop off).take c := by
  rw [rowSlices]
  exact List.take_left' (by simp; omega)

theorem rowSlices_succ_drop (d : List ℤ) (rowLen off c p : Nat)
    (h : off + c ≤ d.length) :
    (rowSlices d rowLen off c (p + 1)).drop c = rowSlices (d.drop rowLen) rowLen off c p := by
  rw [rowSlices]
  exact List.drop_left' (by simp; omega)

theorem rowLenOf_chunk (s : List Nat) (l : Arr) (dt : DType) (dd : List ℤ) :
    rowLenOf s ⟨dt, s ++ l.shape, dd⟩ = l.count := by
  simp [rowLenOf, List.drop_left, Arr.count]

theorem unravelChunks_length (s : List Nat) (rowLen p : Nat) (d : List ℤ) (dt : DType) :
    ∀ (ls : List Arr) (off : Nat), (unravelChunks s rowLen p d dt off ls).length = ls.length := by
  intro ls
  induction ls with
  | nil => intro off; rfl
  | cons l rest ih => intro off; simp [unravelChunks, ih]

theorem unravelChunks_shapes (s : List Nat) (rowLen p : Nat) (d : List ℤ) (dt : DType) :
    ∀ (ls : List Arr) (off : Nat),
      (unravelChunks s rowLen p d dt off ls).map Arr.shape =
        ls.map (fun l => s ++ l.shape) := by
  intro ls
  induction ls with
  | nil => intro off; rfl
  | cons l rest ih => intro off; simp [unravelChunks, ih]

theorem unravelChunks_heads (s : List Nat) (D p : Nat) (dt : DType) (d : List ℤ) :
    ∀ (ls : List Arr) (off : Nat), off + sumCounts ls ≤ D → D ≤ d.length →
      (unravelChunks s D (p + 1) d dt off ls).flatMap
          (fun c => c.data.take (rowLenOf s c)) =
        (d.drop off).take (sumCounts ls) := by
  intro ls
  induction ls with
  | nil => intro off _ _; simp [unravelChunks, sumCounts]
  | cons l rest ih =>
      intro off hsum hd
      have hsum' : sumCounts (l :: rest) = l.count + sumCounts rest := by
        simp [sumCounts]
      rw [unravelChunks]
      simp only [List.flatMap_cons]
      rw [rowLenOf_chunk]
      rw [rowSlices_succ_take d D off l.count p (by rw [hsum'] at hsum; omega)]
      rw [ih (off + l.count) (by rw [hsum'] at hsum; omega) hd]
      rw [hsum', List.take_add]
      congr 1
      rw [List.drop_drop]

theorem unravelChunks_tails (s : List Nat) (D p : Nat) (dt : DType) (d : List ℤ) :
    ∀ (ls : List Arr) (off : Nat), off + sumCounts ls ≤ D → D ≤ d.length →
      (unravelChunks s D (p + 1) d dt off ls).map
          (fun c => { c with data := c.data.drop (rowLenOf s c) }) =
        unravelChunks s D p (d.drop D) dt off ls := by
  intro ls
  induction ls with
  | nil => intro off _ _; rfl
  | cons l rest ih =>
      intro off hsum hd
      have hsum' : sumCounts (l :: rest) = l.count + sumCounts rest := by
        simp [sumCounts]
      rw [unravelChunks, unravelChunks]
      simp only [List.map_cons]
      rw [ih (off + l.count) (by rw [hsum'] at hsum; omega) hd]
      congr 1
      simp only [rowLenOf_chunk]
      rw [rowSlices_succ_drop d D off l.count p (by rw [hsum'] at hsum; omega)]

theorem concatRowsData_unravelChunks (s : List Nat) (D : Nat) (dt : DType)
    (ls : List Arr) (hD : sumCounts ls = D) :
    ∀ (p : Nat) (d : List ℤ), d.length = p * D →
      concatRowsData s p (unravelChunks s D p d dt 0 ls) = d := by
  intro p
  induction p with
  | zero =>
      intro d hlen
      rw [concatRowsData]
      exact (List.eq_nil_of_length_eq_zero (by simpa using hlen)).symm
  | succ p ih =>
      intro d hlen
      have hDd : D ≤ d.length := by
        rw [hlen, Nat.succ_mul]
        exact Nat.le_add_left D (p * D)
      have h1 : 0 + sumCounts ls ≤ D := by omega
      rw [concatRowsData]
      rw [unravelChunks_tails s D p dt d ls 0 h1 hDd]
      rw [unravelChunks_heads s D p dt d ls 0 h1 hDd]
      rw [ih (d.drop D) (by simp [hlen, Nat.succ_mul])]
      rw [List.drop_zero, hD, List.take_append_drop]

theorem unravelChunks_rowLens (s : List Nat) (rowLen p : Nat) (d : List ℤ) (dt : DType) :
    ∀ (ls : List Arr) (off : Nat),
      (unravelChunks s rowLen p d dt off ls).map (fun c => rowLenOf s c) =
        ls.map Arr.count := by
  intro ls
  induction ls with
  | nil => intro off; rfl
  | cons l rest ih =>
      intro off
      simp only [unravelChunks, List.map_cons, rowLenOf_chunk, ih]

theorem unravel_leaves (ex : PyTree) (a : Arr) :
    (unravel ex a).leaves =
      unravelChunks a.shape.dropLast (a.shape.getLastD 0) a.shape.dropLast.prod
        a.data a.dtype 0 ex.leaves := by
  have hlen : (unravelChunks a.shape.dropLast (a.shape.getLastD 0)
      a.shape.dropLast.prod a.data a.dtype 0 ex.leaves).length = ex.leaves.length :=
    unravelChunks_length _ _ _ _ _ ex.leaves 0
  have hspec := (PyTree.rebuild_spec ex _ (le_of_eq hlen.symm)).1
  simp only [unravel]
  rw [hspec, ← hlen, List.take_length]

theorem unravel_struct (ex : PyTree) (a : Arr) : (unravel ex a).struct = ex.struct := by
  simp only [unravel]
  exact PyTree.struct_rebuild ex _

theorem unravel_shapes (ex : PyTree) (a : Arr) :
    (unravel ex a).leaves.map Arr.shape =
      ex.leaves.map (fun l => a.shape.dropLast ++ l.shape) := by
  rw [unravel_leaves, unravelChunks_shapes]

/-- Unravelling a conformant stacked array and re-flattening its trailing
axes in canonical order restores the array exactly. -/
theorem unravel_reflatten (ex : PyTree) (a : Arr) (base : List Nat) (n : Nat)
    (hsh : a.shape = base ++ [n]) (hn : sumCounts ex.leaves = n)
    (hlen : a.data.length = base.prod * n) :
    reflattenLast a.shape.dropLast a.dtype (unravel ex a) = a := by
  obtain ⟨dt, sh, dd⟩ := a
  simp only at hsh hlen
  subst hsh
  have hdl : (base ++ [n]).dropLast = base := List.dropLast_concat
  have hgl : (base ++ [n]).getLastD 0 = n := by simp [List.getLastD_concat]
  simp only [reflattenLast, hdl]
  rw [unravel_leaves]
  simp only [hdl, hgl]
  have hrl := unravelChunks_rowLens base n base.prod dd dt ex.leaves 0
  simp only [Arr.mk.injEq]
  refine ⟨trivial, ?_, ?_⟩
  · rw [hrl]
    have : (ex.leaves.map Arr.count).sum = n := hn
    simp [this]
  · exact concatRowsData_unravelChunks base n dt ex.leaves hn base.prod dd hlen

theorem stackLeaf_shape (n : Nat) (a : Arr) (ds : List (List ℤ)) :
    (stackLeaf n a ds).shape = a.shape ++ [n] := rfl

theorem stackLeaf_data_length (n : Nat) (a : Arr) (ds : List (List ℤ)) :
    (stackLeaf n a ds).data.length = a.count * ds.length := by
  simp only [stackLeaf, List.length_flatMap]
  have : List.map (List.length ∘ fun m => ds.map (fun d => d.getD m 0)) (List.range a.count) =
      List.replicate a.count ds.length := by
    refine List.eq_replicate_iff.2 ⟨by simp, ?_⟩
    intro x hx
    rw [List.mem_map] at hx
    obtain ⟨m, _, rfl⟩ := hx
    simp
  rw [this, List.sum_replicate, smul_eq_mul]

theorem stackList_length (n : Nat) (flats : List (List Arr)) :
    ∀ (ls : List Arr) (k : Nat), (stackList n flats k ls).length = ls.length := by
  intro ls
  induction ls with
  | nil => intro k; rfl
  | cons a rest ih => intro k; simp [stackList, ih]

theorem stackList_dropLast_shapes (n : Nat) (flats : List (List Arr)) :
    ∀ (ls : List Arr) (k : Nat),
      (stackList n flats k ls).map (fun a => a.shape.dropLast) = ls.map Arr.shape := by
  intro ls
  induction ls with
  | nil => intro k; rfl
  | cons a rest ih =>
      intro k
      simp only [stackList, List.map_cons, ih, stackLeaf_shape, List.dropLast_concat]

theorem stackList_mem (n : Nat) (flats : List (List Arr)) :
    ∀ (ls : List Arr) (k : Nat) (a' : Arr), a' ∈ stackList n flats k ls →
      ∃ b ∈ ls, a'.shape = b.shape ++ [n] ∧ a'.data.length = b.count * flats.length := by
  intro ls
  induction ls with
  | nil => intro k a' h; simp [stackList] at h
  | cons a rest ih =>
      intro k a' h
      rw [stackList, List.mem_cons] at h
      rcases h with rfl | h
      · exact ⟨a, by simp, stackLeaf_shape _ _ _, by
          rw [stackLeaf_data_length]; simp⟩
      · obtain ⟨b, hb, h1, h2⟩ := ih (k + 1) a' h
        exact ⟨b, by simp [hb], h1, h2⟩

theorem stackTangents_leaves (template : PyTree) (touts : List PyTree) :
    (stackTangents template touts).leaves =
      stackList touts.length (touts.map PyTree.leaves) 0 template.leaves := by
  have hlen : (stackList touts.length (touts.map PyTree.leaves) 0 template.leaves).length =
      template.leaves.length := stackList_length _ _ _ _
  have hspec := (PyTree.rebuild_spec template _ (le_of_eq hlen.symm)).1
  simp only [stackTangents]
  rw [hspec, ← hlen, List.take_length]

theorem stackTangents_struct (template : PyTree) (touts : List PyTree) :
    (stackTangents template touts).struct = template.struct := by
  simp only [stackTangents]
  exact PyTree.struct_rebuild template _

theorem Arr.diffCount_of_inexact {a : Arr} (h : a.dtype.inexact = true) :
    a.diffCount = a.count := by
  rw [Arr.diffCount, if_neg]
  intro hc
  cases hd : a.dtype <;> rw [hd] at h hc <;> simp_all [DType.inexact, DType.tangent]

theorem mem_zip_map_self {α β : Type} (g : α → β) :
    ∀ (l : List α) (p : β × α), p ∈ (l.map g).zip l → p.1 = g p.2 ∧ p.2 ∈ l := by
  intro l
  induction l with
  | nil => intro p h; simp at h
  | cons a rest ih =>
      intro p h
      rw [List.map_cons, List.zip_cons_cons, List.mem_cons] at h
      rcases h with rfl | h
      · exact ⟨rfl, by simp⟩
      · obtain ⟨h1, h2⟩ := ih p h
        exact ⟨h1, by simp [h2]⟩

theorem mkDiffFun_jvp (f : UserFun) (args : List PyTree)
    (kwargs : List (String × PyTree)) (an : Argnums) (t : PyTree) :
    (mkDiffFun f args kwargs an.idxList).jvp (dynTuple args an) t =
      f.jvp args kwargs (mergeTangents an.idxList t.children 0 args)
        (kwargs.map (fun kv => zeroTangent kv.2)) := by
  simp [mkDiffFun, dynTuple_children, mergeArgs_dynArgs]

theorem dynTuple_single_leaves (args : List PyTree) (n : Nat) :
    (dynTuple args (.single n)).leaves = (args.getD n (.node .nil)).leaves := by
  rw [dynTuple_leaves]
  simp [dynArgs, Argnums.idxList]

theorem dirTangents_length_single (f : UserFun) (args : List PyTree)
    (kwargs : List (String × PyTree)) (n : Nat)
    (hdt : ∀ a ∈ (args.getD n (.node .nil)).leaves, a.dtype.inexact = true) :
    (dirTangents f (.single n) args kwargs).length =
      sumCounts (args.getD n (.node .nil)).leaves := by
  rw [dirTangents, List.length_map, stdBasis_length, dynTuple_single_leaves]
  unfold sumCounts
  apply congrArg
  apply List.map_congr_left
  intro a ha
  exact Arr.diffCount_of_inexact (hdt a ha)

/-- C5: for a single differentiated argument, the returned Jacobian's nesting
mirrors the output structure with, at each output leaf, a copy of the input
structure whose leaves carry the output leaf's axes followed by that input
leaf's axes; and the reassembly is inverse-consistent with the basis
generator's canonical order: re-flattening each grafted subtree's trailing
axes (leaves in flattened order, row-major within a leaf) restores the raw
stacked tangent output of the batched driver element-for-element.  The
hypotheses are a successful call, the runtime's guarantee that an output
tangent has the primary output's skeleton, and differentiable (inexact) input
leaf dtypes. -/
theorem claim_C5_structure_preservation (f : UserFun) (n : Nat) (holo ha : Bool)
    (args : List PyTree) (kwargs : List (String × PyTree)) (r : PyTree)
    (h : runVJ f (.single n) holo ha args kwargs = .ok r)
    (hconf : ∀ as ks ts kts, sameSkeleton (f.jvp as ks ts kts) (f.call as ks).1)
    (hdt : ∀ a ∈ (args.getD n (.node .nil)).leaves, a.dtype.inexact = true) :
    (r = if ha then
        mkPair (mkPair (primalValue f args kwargs) (auxValue f args kwargs))
          (jacResult f (.single n) args kwargs)
      else mkPair (primalValue f args kwargs) (jacResult f (.single n) args kwargs)) ∧
    (jacResult f (.single n) args kwargs).struct =
      TreeDef.graftAll (primalValue f args kwargs).struct
        (args.getD n (.node .nil)).struct ∧
    (jacResult f (.single n) args kwargs).leaves.map Arr.shape =
      (primalValue f args kwargs).leaves.flatMap
        (fun oy => (args.getD n (.node .nil)).leaves.map
          (fun l => oy.shape ++ l.shape)) ∧
    TreeDef.parts (primalValue f args kwargs).struct
        (jacResult f (.single n) args kwargs) =
      (rawStacked f (.single n) args kwargs).leaves.map
        (fun a => unravel (args.getD n (.node .nil)) a) ∧
    (∀ pr ∈ (TreeDef.parts (primalValue f args kwargs).struct
          (jacResult f (.single n) args kwargs)).zip
        (rawStacked f (.single n) args kwargs).leaves,
      reflattenLast pr.2.shape.dropLast pr.2.dtype pr.1 = pr.2) := by
  have hex : exampleArgs args (.single n) = args.getD n (.node .nil) := rfl
  have ht0 : sameSkeleton (tangZero f (.single n) args kwargs)
      (primalValue f args kwargs) := by
    rw [tangZero, mkDiffFun_jvp]
    exact hconf _ _ _ _
  have hSstruct : (rawStacked f (.single n) args kwargs).struct =
      (primalValue f args kwargs).struct := by
    rw [rawStacked, stackTangents_struct]
    exact ht0.1
  have hSleaves : (rawStacked f (.single n) args kwargs).leaves =
      stackList (dirTangents f (.single n) args kwargs).length
        ((dirTangents f (.single n) args kwargs).map PyTree.leaves) 0
        (tangZero f (.single n) args kwargs).leaves := by
    rw [rawStacked, stackTangents_leaves]
  have hp3 : TreeDef.parts (primalValue f args kwargs).struct
      (jacResult f (.single n) args kwargs) =
      (rawStacked f (.single n) args kwargs).leaves.map
        (fun a => unravel (args.getD n (.node .nil)) a) := by
    rw [jacResult, hex, ← hSstruct]
    exact PyTree.parts_graft _ _
  refine ⟨runVJ_ok_shape f (.single n) holo ha args kwargs r h, ?_, ?_, hp3, ?_⟩
  · rw [jacResult, hex]
    rw [PyTree.graft_struct (fun a => unravel (args.getD n (.node .nil)) a)
      (args.getD n (.node .nil)).struct
      (fun a => unravel_struct (args.getD n (.node .nil)) a)
      (rawStacked f (.single n) args kwargs)]
    rw [hSstruct]
  · rw [jacResult, hex, PyTree.graft_leaves, List.map_flatMap]
    simp only [unravel_shapes]
    have hdl : (rawStacked f (.single n) args kwargs).leaves.map
        (fun a => a.shape.dropLast) =
        (primalValue f args kwargs).leaves.map Arr.shape := by
      rw [hSleaves, stackList_dropLast_shapes]
      exact ht0.2
    have e1 : (rawStacked f (.single n) args kwargs).leaves.flatMap
        (fun a => (args.getD n (.node .nil)).leaves.map
          (fun l => a.shape.dropLast ++ l.shape)) =
        ((rawStacked f (.single n) args kwargs).leaves.map
          (fun a => a.shape.dropLast)).flatMap
          (fun s0 => (args.getD n (.node .nil)).leaves.map
            (fun l => s0 ++ l.shape)) := by
      rw [List.flatMap_map]
    have e2 : (primalValue f args kwargs).leaves.flatMap
        (fun oy => (args.getD n (.node .nil)).leaves.map
          (fun l => oy.shape ++ l.shape)) =
        ((primalValue f args kwargs).leaves.map Arr.shape).flatMap
          (fun s0 => (args.getD n (.node .nil)).leaves.map
            (fun l => s0 ++ l.shape)) := by
      rw [List.flatMap_map]
    rw [e1, hdl, ← e2]
  · intro pr hpr
    rw [hp3] at hpr
    obtain ⟨h1, h2⟩ := mem_zip_map_self _ _ pr hpr
    rw [hSleaves] at h2
    obtain ⟨b, _, hsh, hlen2⟩ := stackList_mem _ _ _ _ pr.2 h2
    have hn : sumCounts (args.getD n (.node .nil)).leaves =
        (dirTangents f (.single n) args kwargs).length :=
      (dirTangents_length_single f args kwargs n hdt).symm
    rw [h1]
    refine unravel_reflatten _ pr.2 b.shape
      (dirTangents f (.single n) args kwargs).length hsh hn ?_
    rw [hlen2]
    simp [Arr.count]

/-- Witness for C5 at a nested concrete input: the grafted-structure clause
and the canonical-order re-flattening clause. -/
theorem claim_C5_witness :
    (jacResult nestFun (.single 0) [exampleIn] []).struct =
      TreeDef.graftAll (primalValue nestFun [exampleIn] []).struct
        ([exampleIn].getD 0 (.node .nil)).struct ∧
    (∀ pr ∈ (TreeDef.parts (primalValue nestFun [exampleIn] []).struct
          (jacResult nestFun (.single 0) [exampleIn] [])).zip
        (rawStacked nestFun (.single 0) [exampleIn] []).leaves,
      reflattenLast pr.2.shape.dropLast pr.2.dtype pr.1 = pr.2) := by
  have hmain := claim_C5_structure_preservation nestFun 0 false false [exampleIn] []
    (.node (.cons exampleIn (.cons (.node (.cons
        (.node (.cons (.leaf ⟨.float, [2, 2], [1, 1, 2, 2]⟩)
          (.cons (.leaf ⟨.float, [2], [1, 2]⟩) .nil)))
        (.cons (.node (.cons (.leaf ⟨.float, [2], [3, 3]⟩)
          (.cons (.leaf ⟨.float, [], [3]⟩) .nil))) .nil))) .nil)))
    (by decide) (fun as ks ts kts => ⟨rfl, rfl⟩) (by decide)
  exact ⟨hmain.2.1, hmain.2.2.2.2⟩
